import Mathlib

/-!
# Verification of the 2channel-odds scrape-and-score pipeline

Shallow embedding of the three Python modules of the repository
(`odds_calculator.py`, `scraper.py`, `app.py`) and proofs about them.

Modelling conventions:
* Python `str` is Lean `String`; all string algorithms are re-implemented
  structurally over `String.data : List Char` so that every definition
  kernel-evaluates (core `String` loops use well-founded recursion and do
  not reduce).
* Python `float` is modelled as `ℚ` (the code only performs `+ * / max`
  on values produced from integers and the payout rate, so the formulas
  are exact in `ℚ`).
* A Python `dict` (insertion-ordered, unique keys) is an association list
  with `dictSet` updating in place when the key is present and appending
  otherwise, exactly the CPython semantics used by the source.
* `str.lower` is modelled character-wise with `Char.toLower` (ASCII case
  mapping; this agrees with Python on every string appearing in the
  scenarios, which mix ASCII letters and Japanese characters).
* `str.strip` (no argument) is modelled with the ASCII whitespace set.
-/

/-! ## Generic helpers: Python dict and string primitives -/

/-- CPython `dict.__setitem__` on an insertion-ordered association list:
update in place when the key is already present, append otherwise. -/
def dictSet {α : Type} : List (String × α) → String → α → List (String × α)
  | [], k, v => [(k, v)]
  | e :: d, k, v => if e.1 == k then (k, v) :: d else e :: dictSet d k v

/-- Lookup of a key in an association list; `none` when absent
(Python would raise `KeyError`, which never happens in the modelled code
because every key is initialised before it is read). -/
def dictFind {α : Type} : List (String × α) → String → Option α
  | [], _ => none
  | e :: d, k => if e.1 == k then some e.2 else dictFind d k

/-- `counts[k]` for the integer-valued dicts of `odds_calculator.py`. -/
def dictGet (d : List (String × Nat)) (k : String) : Nat :=
  (dictFind d k).getD 0

/-- `k in d` for Python dicts. -/
def dictMem {α : Type} (d : List (String × α)) (k : String) : Bool :=
  (dictFind d k).isSome

/-- ASCII whitespace, the characters removed by Python `str.strip()`
(the Unicode space characters that `strip` also removes never occur in the
modelled data). -/
def isPySpace (c : Char) : Bool :=
  c = ' ' || c = '\t' || c = '\n' || c = '\x0d' || c = '\x0b' || c = '\x0c'

/-- Python `str.strip()` (model, ASCII whitespace). -/
def pyStrip (s : String) : String :=
  ⟨((s.data.dropWhile isPySpace).reverse.dropWhile isPySpace).reverse⟩

/-- Python `str.lower()` (model, character-wise ASCII case mapping). -/
def lowerStr (s : String) : String :=
  ⟨s.data.map Char.toLower⟩

/-- Python `sep in s` for a single-character separator. -/
def strContainsChar (s : String) (c : Char) : Bool :=
  s.data.contains c

/-- Python `s.split(sep)` for a single-character separator `sep`
(keeps empty fields, `''.split(sep) = ['']`). -/
def splitCharAux (sep : Char) : List Char → List (List Char)
  | [] => [[]]
  | c :: cs =>
    if c = sep then [] :: splitCharAux sep cs
    else
      match splitCharAux sep cs with
      | [] => [[c]]
      | h :: t => (c :: h) :: t

/-- Python `s.split(sep)` for a one-character separator, on strings. -/
def pySplitChar (sep : Char) (s : String) : List String :=
  (splitCharAux sep s.data).map (fun t => ⟨t⟩)

/-- Python `s.split(sep)` for the two-character separator `ab`
(used for the `<>` field separator of the dat format). -/
def splitOn2 (a b : Char) : List Char → List (List Char)
  | [] => [[]]
  | [c] => [[c]]
  | c :: d :: rest =>
    if c = a && d = b then
      [] :: splitOn2 a b rest
    else
      match splitOn2 a b (d :: rest) with
      | [] => [[c]]
      | h :: t => (c :: h) :: t

/-- `needle` occurs as a contiguous substring of `hay`
(the semantics of a successful `re.search` of an escaped literal). -/
def subOccurs (needle : List Char) : List Char → Bool
  | [] => needle.isPrefixOf []
  | c :: cs => needle.isPrefixOf (c :: cs) || subOccurs needle cs

/-- `re.search` of the literal `needle` inside `hay`, on strings. -/
def containsSub (needle hay : String) : Bool :=
  subOccurs needle.data hay.data

/-! ## Stable insertion sort

CPython `sorted` is a stable comparison sort; any stable sort by the same
strict key order produces the identical output, so the reference behaviour
is modelled by stable insertion sort.  `lt a b` means "`a` must be
strictly before `b`"; an element being inserted (which originally came
*earlier* than the already-sorted tail) is placed before every element it
is not strictly after, preserving stability. -/

def insertSorted {α : Type} (lt : α → α → Bool) (x : α) : List α → List α
  | [] => [x]
  | y :: ys => if lt y x then y :: insertSorted lt x ys else x :: y :: ys

/-- Stable sort by the strict comparison `lt` (models Python `sorted`). -/
def stableSort {α : Type} (lt : α → α → Bool) : List α → List α
  | [] => []
  | x :: xs => insertSorted lt x (stableSort lt xs)

/-! ## `odds_calculator.py` -/

/-- A synonym group as built by `parse_keyword_groups`:
`{'display': ..., 'synonyms': [...]}`. -/
structure KeywordGroup where
  display : String
  synonyms : List String
deriving DecidableEq, Repr

/-- `odds_calculator.parse_keyword_groups` (lines 10–35): a spec
containing `'|'` is split on it, each part stripped, empty parts dropped,
and the spec dropped entirely when nothing remains; a spec without `'|'`
yields a single-synonym group equal to the raw spec. -/
def parse_keyword_groups : List String → List KeywordGroup
  | [] => []
  | kw :: rest =>
    (if strContainsChar kw '|' then
      match ((pySplitChar '|' kw).map pyStrip).filter (fun s => s ≠ "") with
      | [] => []
      | s0 :: syns => [⟨s0, s0 :: syns⟩]
     else [⟨kw, [kw]⟩]) ++ parse_keyword_groups rest

/-- `sorted(synonyms, key=len, reverse=True)`: stable sort by descending
character length. -/
def sortSynonyms (synonyms : List String) : List String :=
  stableSort (fun a b => decide (b.length < a.length)) synonyms

/-- Whether the compiled pattern
`'(' + '|'.join(re.escape(s.lower()) for s in synonyms_sorted) + ')'`
matches anywhere inside the already-lowered post body.  Every alternative
is an escaped literal, so `re.search` succeeds iff some (lowered) synonym
is a substring; with zero synonyms the pattern is `'()'`, which matches
the empty string at position 0, i.e. always succeeds. -/
def groupPatternMatches (synonyms : List String) (postLower : String) : Bool :=
  let sortedSyns := sortSynonyms synonyms
  sortedSyns.isEmpty || sortedSyns.any (fun s => containsSub (lowerStr s) postLower)

/-- `odds_calculator.count_keyword_groups` (lines 38–69): the counts dict
is keyed by `display` and initialised to 0, then for every group each
post whose lowered body matches the group's pattern increments the
group's entry by one. -/
def count_keyword_groups (posts : List String) (keyword_groups : List KeywordGroup) :
    List (String × Nat) :=
  let init := keyword_groups.foldl (fun d g => dictSet d g.display 0) []
  keyword_groups.foldl (fun counts g =>
    posts.foldl (fun counts post =>
      if groupPatternMatches g.synonyms (lowerStr post) then
        dictSet counts g.display (dictGet counts g.display + 1)
      else counts) counts) init

/-- One row of the `calculate_odds` result
(`odds = none` models Python `None`, displayed as `'-'`; the
`odds_display`/`probability_display` strings of the source are decimal
renderings of these two fields and are not modelled separately). -/
structure OddsEntry where
  count : Nat
  odds : Option ℚ
  probability : ℚ
deriving DecidableEq, Repr

/-- `odds_calculator.calculate_odds` (lines 87–133). -/
def calculate_odds (counts : List (String × Nat)) (payout_rate : ℚ) :
    List (String × OddsEntry) :=
  let total_count : Nat := (counts.map (fun e => e.2)).sum
  counts.map (fun e =>
    if e.2 = 0 then
      (e.1, ⟨0, none, 0⟩)
    else
      (e.1, ⟨e.2, some (max ((total_count * payout_rate) / e.2) 1),
             if 0 < total_count then (e.2 : ℚ) / total_count else 0⟩))

/-- The Python sort key
`lambda x: (x[1]['odds'] is None, x[1]['odds'] if x[1]['odds'] else float('inf'))`.
For a `None` odds the second component is `inf`, which is only ever
compared against another `inf`; it is therefore modelled by the constant
`0`, which yields the identical ordering. -/
def oddsSortKey (e : String × OddsEntry) : Bool × ℚ :=
  match e.2.odds with
  | none => (true, 0)
  | some o => (false, o)

/-- Lexicographic strict comparison of Python sort-key tuples
`(bool, number)` (`False < True`). -/
def keyLt (a b : Bool × ℚ) : Bool :=
  (!a.1 && b.1) || (a.1 == b.1 && decide (a.2 < b.2))

/-- Strict "ranks before" comparison of two result rows. -/
def entryLt (a b : String × OddsEntry) : Bool :=
  keyLt (oddsSortKey a) (oddsSortKey b)

/-- The analysis record returned by `analyze_thread`. -/
structure Analysis where
  results : List (String × OddsEntry)
  total_count : Nat
  post_count : Nat
  payout_rate : ℚ
  keywords : List String
  synonym_info : List (String × List String)
deriving Repr

/-- `odds_calculator.analyze_thread` (lines 136–178). -/
def analyze_thread (posts : List String) (keywords : List String) (payout_rate : ℚ) :
    Analysis :=
  let keyword_groups := parse_keyword_groups keywords
  let counts := count_keyword_groups posts keyword_groups
  let odds_results := calculate_odds counts payout_rate
  let total_count := (counts.map (fun e => e.2)).sum
  let sorted_results := stableSort entryLt odds_results
  { results := sorted_results
    total_count := total_count
    post_count := posts.length
    payout_rate := payout_rate
    keywords := keywords
    synonym_info := keyword_groups.foldl (fun d g => dictSet d g.display g.synonyms) [] }

/-! ## `scraper.py` -/

/-- The `(scheme, netloc, path)` triple of Python
`urllib.parse.urlparse` (query and fragment components are split off but
never used by the source, so they are not retained). -/
structure UrlParts where
  scheme : String
  netloc : String
  path : String
deriving DecidableEq, Repr

/-- A character allowed in a URL scheme after the first (alphabetic) one. -/
def isSchemeChar (c : Char) : Bool :=
  c.isAlphanum || c = '+' || c = '-' || c = '.'

/-- Model of `urllib.parse.urlparse` restricted to the components the
source reads: the scheme is split off (and lowercased) when the text
before the first `':'` is a valid scheme; a netloc follows a leading
`"//"` and runs to the first `'/'`, `'?'` or `'#'`; the path runs to the
first `'?'` or `'#'`. -/
def pyUrlparse (url : String) : UrlParts :=
  let cs := url.data
  let pre := cs.takeWhile (fun c => c ≠ ':')
  let hasColon := (cs.dropWhile (fun c => c ≠ ':')) ≠ []
  let validScheme :=
    hasColon && !pre.isEmpty &&
      (match pre with
       | [] => false
       | c :: rest => c.isAlpha && rest.all isSchemeChar)
  let scheme : List Char := if validScheme then pre.map Char.toLower else []
  let rest : List Char := if validScheme then cs.drop (pre.length + 1) else cs
  let hasNetloc := ['/', '/'].isPrefixOf rest
  let netloc : List Char :=
    if hasNetloc then (rest.drop 2).takeWhile (fun c => c ≠ '/' && c ≠ '?' && c ≠ '#')
    else []
  let afterNetloc : List Char :=
    if hasNetloc then (rest.drop 2).dropWhile (fun c => c ≠ '/' && c ≠ '?' && c ≠ '#')
    else rest
  ⟨⟨scheme⟩, ⟨netloc⟩, ⟨afterNetloc.takeWhile (fun c => c ≠ '?' && c ≠ '#')⟩⟩

/-- `\d` of the source's patterns (model: ASCII digits; Python `re` would
also accept other Unicode decimal digits, which never occur in thread
ids). -/
def pyIsDigit (c : Char) : Bool := c.isDigit

/-- Model of `re.match(r'/([^/]+)/test/read\.cgi/([^/]+)/(\d+)', path)`:
the groups `[^/]+` cannot cross a `'/'`, so a successful (anchored,
prefix) match decomposes the path as
`/{seg}/test/read.cgi/{board}/{digits}...` with `seg`, `board` non-empty
segments and `digits` the maximal non-empty leading digit run of the last
part; trailing text is ignored (the pattern is unanchored at the end). -/
def matchItestPath (path : String) : Option (String × String × String) :=
  match path.data with
  | '/' :: rest =>
    let seg1 := rest.takeWhile (fun c => c ≠ '/')
    let rest1 := rest.dropWhile (fun c => c ≠ '/')
    if seg1.isEmpty then none
    else if "/test/read.cgi/".data.isPrefixOf rest1 then
      let rest2 := rest1.drop "/test/read.cgi/".data.length
      let board := rest2.takeWhile (fun c => c ≠ '/')
      let rest3 := rest2.dropWhile (fun c => c ≠ '/')
      if board.isEmpty then none
      else
        match rest3 with
        | '/' :: rest4 =>
          let digits := rest4.takeWhile pyIsDigit
          if digits.isEmpty then none else some (⟨seg1⟩, ⟨board⟩, ⟨digits⟩)
        | _ => none
    else none
  | _ => none

/-- Model of `re.match(r'/test/read\.cgi/([^/]+)/(\d+)', path)`. -/
def matchDirectPath (path : String) : Option (String × String) :=
  if "/test/read.cgi/".data.isPrefixOf path.data then
    let rest2 := path.data.drop "/test/read.cgi/".data.length
    let board := rest2.takeWhile (fun c => c ≠ '/')
    let rest3 := rest2.dropWhile (fun c => c ≠ '/')
    if board.isEmpty then none
    else
      match rest3 with
      | '/' :: rest4 =>
        let digits := rest4.takeWhile pyIsDigit
        if digits.isEmpty then none else some (⟨board⟩, ⟨digits⟩)
      | _ => none
  else none

/-- The thread locator built by `parse_thread_url`. -/
structure ThreadInfo where
  host : String
  board : String
  thread_id : String
  base_url : String
deriving DecidableEq, Repr

/-- `scraper.parse_thread_url` (lines 18–55).  `Except.error` models the
raised `ValueError` (the `InvalidURL` condition), carrying the formatted
message. -/
def parse_thread_url (url : String) : Except String ThreadInfo :=
  let p := pyUrlparse url
  let itestResult : Option ThreadInfo :=
    if p.netloc = "itest.5ch.net" then
      (matchItestPath p.path).map (fun g =>
        let real_host := g.1 ++ ".5ch.net"
        ⟨real_host, g.2.1, g.2.2, p.scheme ++ "://" ++ real_host⟩)
    else none
  match itestResult with
  | some info => Except.ok info
  | none =>
    match matchDirectPath p.path with
    | some g => Except.ok ⟨p.netloc, g.1, g.2, p.scheme ++ "://" ++ p.netloc⟩
    | none => Except.error ("無効なスレッドURL形式: " ++ url)

/-- A transport-level fault of `requests.get` (connection error,
timeout, ...), which in Python is a raised exception. -/
inductive Transport
  | timeout
  | connectionError
deriving DecidableEq, Repr

/-- The parts of a `requests` response the source reads.  `text` is the
body decoded with the response's declared encoding (what `response.text`
returns when `response.encoding` is set). -/
structure HttpResponse where
  status : Nat
  content : List Nat
  encoding : Option String
  text : String
deriving DecidableEq, Repr

/-- The outcome of one `requests.get`: either a transport fault (raised)
or a response. -/
abbrev Net := Except Transport HttpResponse

/-- `response.content.decode('cp932')` with fallback
`decode('shift_jis', errors='replace')`: the strict decoder returns
`none` on `UnicodeDecodeError`.  The cp932 code tables themselves are
abstracted as the two function parameters. -/
def decodeSjis (decS : List Nat → Option String) (decR : List Nat → String)
    (content : List Nat) : String :=
  match decS content with
  | some s => s
  | none => decR content

/-- `scraper.fetch_thread_dat` (lines 58–78).  The source performs
`requests.get` with **no** surrounding `try`, so a transport fault
propagates (`Except.error`); a non-200 status returns `None`
(`Except.ok none`); a 200 status returns the decoded body. -/
def fetch_thread_dat (net : Net) (decS : List Nat → Option String)
    (decR : List Nat → String) : Except Transport (Option String) :=
  match net with
  | Except.error t => Except.error t
  | Except.ok r =>
    if r.status = 200 then Except.ok (some (decodeSjis decS decR r.content))
    else Except.ok none

/-- Errors surfaced by the scrape pipeline: `invalidURL` models the
`ValueError` of URL parsing, `transport` a propagated `requests`
exception, `httpError` the `Exception` raised by `fetch_thread_html` on a
non-200 status, `noPosts` the final "no posts retrieved" `Exception`. -/
inductive ScrapeError
  | invalidURL (msg : String)
  | transport (t : Transport)
  | httpError (status : Nat)
  | noPosts
deriving DecidableEq, Repr

/-- `scraper.fetch_thread_html` (lines 81–102): a transport fault
propagates; a non-200 status raises; on 200 the body is decoded with the
legacy family when the declared encoding is absent or `ISO-8859-1`, and
trusted (`response.text`) otherwise. -/
def fetch_thread_html (net : Net) (decS : List Nat → Option String)
    (decR : List Nat → String) : Except ScrapeError String :=
  match net with
  | Except.error t => Except.error (ScrapeError.transport t)
  | Except.ok r =>
    if r.status = 200 then
      if r.encoding = none || r.encoding = some "ISO-8859-1" then
        Except.ok (decodeSjis decS decR r.content)
      else Except.ok r.text
    else Except.error (ScrapeError.httpError r.status)

/-- Body normalisation of one dat record (part of `parse_dat_content`):
`re.sub(r'<br>', '\n')`, then `re.sub(r'<[^>]+>', '')`, then the four
entity replacements, then `strip()`.  Implemented below with
fuel-indexed structural recursion (`fuel` = list length, always
sufficient since every step consumes at least one character). -/
def replaceSeqFuel (pat rep : List Char) : Nat → List Char → List Char
  | 0, cs => cs
  | _ + 1, [] => []
  | f + 1, c :: cs =>
    if pat.isPrefixOf (c :: cs) then rep ++ replaceSeqFuel pat rep f ((c :: cs).drop pat.length)
    else c :: replaceSeqFuel pat rep f cs

/-- Python `s.replace(pat, rep)` / `re.sub` of a literal pattern:
leftmost, non-overlapping (model; `pat` is non-empty at every use site). -/
def replaceSeq (pat rep cs : List Char) : List Char :=
  replaceSeqFuel pat rep cs.length cs

/-- One step list of `re.sub(r'<[^>]+>', '', s)`: a match runs from a
`'<'` through at least one non-`'>'` character to the first following
`'>'`; a `'<'` not followed by such a run is literal text.  When no `'>'`
remains the rest of the text can contain no further match. -/
def stripTagsFuel : Nat → List Char → List Char
  | 0, cs => cs
  | _ + 1, [] => []
  | f + 1, c :: cs =>
    if c = '<' then
      let inner := cs.takeWhile (fun d => d ≠ '>')
      let after := cs.dropWhile (fun d => d ≠ '>')
      if inner.isEmpty then c :: stripTagsFuel f cs
      else
        match after with
        | _ :: rest2 => stripTagsFuel f rest2
        | [] => c :: cs
    else c :: stripTagsFuel f cs

/-- `re.sub(r'<[^>]+>', '', s)` (fuel = length, always sufficient). -/
def stripTags (cs : List Char) : List Char :=
  stripTagsFuel cs.length cs

/-- `strip()` on a character list. -/
def stripChars (cs : List Char) : List Char :=
  ((cs.dropWhile isPySpace).reverse.dropWhile isPySpace).reverse

/-- The body-normalisation chain of `parse_dat_content` (lines 119–125). -/
def normalizeBody (body : List Char) : List Char :=
  let b1 := replaceSeq "<br>".data "\n".data body
  let b2 := stripTags b1
  let b3 := replaceSeq "&gt;".data ">".data b2
  let b4 := replaceSeq "&lt;".data "<".data b3
  let b5 := replaceSeq "&amp;".data "&".data b4
  let b6 := replaceSeq "&quot;".data "\"".data b5
  stripChars b6

/-- `scraper.parse_dat_content` (lines 105–127): strip the payload, split
into lines, split each line on `'<>'`, keep the fourth field of every
line with at least four fields, normalised. -/
def parse_dat_content (dat : String) : List String :=
  let lines := splitCharAux '\n' (pyStrip dat).data
  lines.filterMap (fun line =>
    let parts := splitOn2 '<' '>' line
    if 4 ≤ parts.length then some ⟨normalizeBody (parts.getD 3 [])⟩ else none)

/-- The HTML fallback branch of `scrape_thread` (lines 202–205 plus the
final emptiness check): fetch the page, extract posts, fail with the
"no posts" error when extraction yields nothing.  `parseHtml` abstracts
`parse_html_content`, whose BeautifulSoup tree traversal is outside the
embedded fragment. -/
def fallbackResult (htmlNet : Net) (decS : List Nat → Option String)
    (decR : List Nat → String) (parseHtml : String → List String) :
    Except ScrapeError (List String) :=
  match fetch_thread_html htmlNet decS decR with
  | Except.error e => Except.error e
  | Except.ok html =>
    let posts := parseHtml html
    if posts.isEmpty then Except.error ScrapeError.noPosts else Except.ok posts

/-- The fetch/extract part of `scraper.scrape_thread` (lines 188–208),
after URL resolution: try the dat format; when it yields no posts, fall
back to the HTML format.  A transport fault of the dat request is not
caught anywhere in the source and therefore propagates without the
fallback being attempted. -/
def scrape_posts (datNet htmlNet : Net) (decS : List Nat → Option String)
    (decR : List Nat → String) (parseHtml : String → List String) :
    Except ScrapeError (List String) :=
  match fetch_thread_dat datNet decS decR with
  | Except.error t => Except.error (ScrapeError.transport t)
  | Except.ok datContent =>
    let posts :=
      match datContent with
      | some c => parse_dat_content c
      | none => []
    if posts.isEmpty then fallbackResult htmlNet decS decR parseHtml
    else Except.ok posts

/-! ## `app.py` -/

/-- The entry produced by `parse_url_line`
(`{'url': ..., 'start': start_num, 'end': end_num}`). -/
structure UrlEntry where
  url : String
  startNum : Int
  endNum : Option Int
deriving DecidableEq, Repr

/-- Digit run of a Python integer literal: digits optionally grouped by
single underscores, no leading/trailing/double underscore. -/
def pyIntDigits : List Char → Option Nat
  | [] => none
  | c :: cs =>
    if c.isDigit then pyIntGo (c.toNat - 48) cs else none
where
  pyIntGo (acc : Nat) : List Char → Option Nat
    | [] => some acc
    | '_' :: c :: cs => if c.isDigit then pyIntGo (acc * 10 + (c.toNat - 48)) cs else none
    | c :: cs => if c.isDigit then pyIntGo (acc * 10 + (c.toNat - 48)) cs else none

/-- Python `int(s)` (model: surrounding whitespace stripped, optional
sign, ASCII-digit literal; `none` models the raised `ValueError`.
Non-ASCII decimal digits, also accepted by Python, never occur here). -/
def pyInt (s : String) : Option Int :=
  match (pyStrip s).data with
  | '+' :: ds => (pyIntDigits ds).map Int.ofNat
  | '-' :: ds => (pyIntDigits ds).map (fun n => -(n : Int))
  | ds => (pyIntDigits ds).map Int.ofNat

/-- `re.split(r'\s+', line)` on an already-stripped line: the non-empty
whitespace-separated tokens. -/
def splitWsTokens (s : String) : List String :=
  ((splitWsAux s.data).filter (fun t => ¬ t.isEmpty)).map (fun t => ⟨t⟩)
where
  splitWsAux : List Char → List (List Char)
    | [] => [[]]
    | c :: cs =>
      if isPySpace c then [] :: splitWsAux cs
      else
        match splitWsAux cs with
        | [] => [[c]]
        | h :: t => (c :: h) :: t

/-- The range computation of `app.parse_url_line` (lines 37–52) on the
second token.  The `try` block assigns `start_num` and `end_num`
sequentially, so a `ValueError` raised by the *end* conversion keeps the
already-assigned start, while one raised by the *start* conversion leaves
both defaults in place. -/
def parseRangeToken (rs : String) : Int × Option Int :=
  if strContainsChar rs '-' then
    let rp := pySplitChar '-' rs
    let p0 := rp.getD 0 ""
    let p1 := rp.getD 1 ""
    match (if p0 = "" then some 1 else pyInt p0) with
    | none => (1, none)
    | some s =>
      match (if p1 = "" then some none else (pyInt p1).map some) with
      | none => (s, none)
      | some e => (s, e)
  else
    match pyInt rs with
    | none => (1, none)
    | some s => (s, none)

/-- `app.parse_url_line` (lines 12–64).  `none` models the Python
`None` returned for a blank line. -/
def parse_url_line (line : String) : Option UrlEntry :=
  let l := pyStrip line
  if l = "" then none
  else
    let parts := splitWsTokens l
    let url := parts.getD 0 ""
    let se := if 2 ≤ parts.length then parseRangeToken (parts.getD 1 "") else (1, none)
    let start1 : Int := if se.1 < 1 then 1 else se.1
    let end1 : Option Int :=
      match se.2 with
      | some e => if e < start1 then none else some e
      | none => none
    some ⟨url, start1, end1⟩

/-! ## Derived notions used by the statements -/

/-- Number of posts that match a group's pattern (each matching post
counts once, regardless of how many synonyms or occurrences it holds). -/
def matchCount (posts : List String) (g : KeywordGroup) : Nat :=
  posts.countP (fun p => groupPatternMatches g.synonyms (lowerStr p))

/-- The claim-side description of a post counting for a group: the
lower-cased body contains at least one of the group's lower-cased
synonyms as a literal substring. -/
def postHasSynonym (g : KeywordGroup) (p : String) : Bool :=
  g.synonyms.any (fun s => containsSub (lowerStr s) (lowerStr p))

/-- First-seen deduplication of a list of keys: the insertion order of a
Python dict built by assigning each key in sequence. -/
def firstSeenKeys (l : List String) : List String :=
  l.foldl (fun acc x => if acc.contains x then acc else acc ++ [x]) []

/-- The ranking order on the `odds` field described by the spec:
defined odds ascend numerically, undefined odds rank strictly after
every defined one, undefined ties undefined. -/
def oddsLe : Option ℚ → Option ℚ → Prop
  | some a, some b => a ≤ b
  | some _, none => True
  | none, none => True
  | none, some _ => False

/-! # Theorems -/

/-! ## Dict lemmas -/

theorem dictFind_set_self {α : Type} (d : List (String × α)) (k : String) (v : α) :
    dictFind (dictSet d k v) k = some v := by
  induction d with
  | nil => simp [dictSet, dictFind]
  | cons e d ih =>
    by_cases h : e.1 = k
    · simp [dictSet, dictFind, h]
    · simp only [dictSet, dictFind, beq_iff_eq, h, if_false, if_neg h, ih]

theorem dictFind_set_other {α : Type} (d : List (String × α)) (k' k : String) (v : α)
    (h : k' ≠ k) : dictFind (dictSet d k' v) k = dictFind d k := by
  induction d with
  | nil => simp [dictSet, dictFind, h]
  | cons e d ih =>
    by_cases he : e.1 = k'
    · simp [dictSet, dictFind, he, h]
    · simp only [dictSet, dictFind, beq_iff_eq, he, if_false, ih]

theorem dictGet_set_self (d : List (String × Nat)) (k : String) (v : Nat) :
    dictGet (dictSet d k v) k = v := by
  simp [dictGet, dictFind_set_self]

theorem dictGet_set_other (d : List (String × Nat)) (k' k : String) (v : Nat)
    (h : k' ≠ k) : dictGet (dictSet d k' v) k = dictGet d k := by
  simp [dictGet, dictFind_set_other _ _ _ _ h]

theorem dictMem_eq_contains {α : Type} (d : List (String × α)) (k : String) :
    dictMem d k = (d.map Prod.fst).contains k := by
  induction d with
  | nil => rfl
  | cons e d ih =>
    by_cases h : e.1 = k
    · simp [dictMem, dictFind, h, List.contains_cons]
    · have h1 : (e.1 == k) = false := by simp [h]
      have h2 : (k == e.1) = false := by simp [Ne.symm h]
      simp only [dictMem, dictFind, h1, Bool.false_eq_true, if_false, List.map_cons,
        List.contains_cons, h2, Bool.false_or]
      exact ih

theorem dictSet_keys {α : Type} (d : List (String × α)) (k : String) (v : α) :
    (dictSet d k v).map Prod.fst =
      if dictMem d k then d.map Prod.fst else d.map Prod.fst ++ [k] := by
  induction d with
  | nil => simp [dictSet, dictMem, dictFind]
  | cons e d ih =>
    by_cases h : e.1 = k
    · simp [dictSet, dictMem, dictFind, h]
    · have h1 : (e.1 == k) = false := by simp [h]
      simp only [dictSet, dictMem, dictFind, h1, Bool.false_eq_true, if_false,
        List.map_cons, ih, dictMem]
      by_cases hm : (dictFind d k).isSome = true
      · simp [hm]
      · simp [hm]

theorem dictMem_set {α : Type} (d : List (String × α)) (k' k : String) (v : α) :
    dictMem (dictSet d k' v) k = (k' == k || dictMem d k) := by
  by_cases h : k' = k
  · subst h; simp [dictMem, dictFind_set_self]
  · have : (k' == k) = false := by simp [h]
    simp [dictMem, dictFind_set_other _ _ _ _ h, this]

/-! ## Counting lemmas -/

theorem innerFold_get (posts : List String) (g : KeywordGroup)
    (d : List (String × Nat)) (k : String) :
    dictGet (posts.foldl (fun counts post =>
        if groupPatternMatches g.synonyms (lowerStr post) then
          dictSet counts g.display (dictGet counts g.display + 1)
        else counts) d) k
      = dictGet d k + (if g.display = k then matchCount posts g else 0) := by
  induction posts generalizing d with
  | nil => simp [matchCount]
  | cons p ps ih =>
    simp only [List.foldl_cons]
    by_cases hm : groupPatternMatches g.synonyms (lowerStr p) = true
    · rw [if_pos hm, ih]
      by_cases hk : g.display = k
      · subst hk
        rw [dictGet_set_self]
        have hc : matchCount (p :: ps) g = matchCount ps g + 1 := by
          simp [matchCount, List.countP_cons, hm]
        rw [hc, if_pos (rfl : g.display = g.display), if_pos (rfl : g.display = g.display)]
        omega
      · rw [dictGet_set_other _ _ _ _ hk]
        simp [hk]
    · rw [if_neg hm, ih]
      by_cases hk : g.display = k
      · subst hk
        have hc : matchCount (p :: ps) g = matchCount ps g := by
          simp [matchCount, List.countP_cons, hm]
        simp only [hc]
      · simp [hk]

theorem initFold_get (gs : List KeywordGroup) (d : List (String × Nat))
    (h : ∀ k, dictGet d k = 0) (k : String) :
    dictGet (gs.foldl (fun d g => dictSet d g.display 0) d) k = 0 := by
  induction gs generalizing d with
  | nil => exact h k
  | cons g gs ih =>
    simp only [List.foldl_cons]
    refine ih _ (fun k' => ?_)
    by_cases hk : g.display = k'
    · subst hk; exact dictGet_set_self _ _ _
    · rw [dictGet_set_other _ _ _ _ hk]; exact h k'

theorem outerFold_get (posts : List String) (gs : List KeywordGroup)
    (d : List (String × Nat)) (k : String) :
    dictGet (gs.foldl (fun counts g =>
        posts.foldl (fun counts post =>
          if groupPatternMatches g.synonyms (lowerStr post) then
            dictSet counts g.display (dictGet counts g.display + 1)
          else counts) counts) d) k
      = dictGet d k + ((gs.filter (fun g => g.display == k)).map (matchCount posts)).sum := by
  induction gs generalizing d with
  | nil => simp
  | cons g gs ih =>
    simp only [List.foldl_cons]
    rw [ih, innerFold_get]
    by_cases hk : g.display = k
    · rw [List.filter_cons_of_pos (by simp [hk]), List.map_cons, List.sum_cons, if_pos hk]
      omega
    · rw [List.filter_cons_of_neg (by simp [hk]), if_neg hk]
      omega

/-- The value the counter assigns to a key: the *sum*, over every group
whose `display` equals that key, of the group's per-post match count
(groups colliding on `display` accumulate into one dict entry). -/
theorem count_keyword_groups_get (posts : List String) (gs : List KeywordGroup)
    (k : String) :
    dictGet (count_keyword_groups posts gs) k
      = ((gs.filter (fun g => g.display == k)).map (matchCount posts)).sum := by
  simp only [count_keyword_groups]
  rw [outerFold_get, initFold_get gs [] (fun _ => rfl) k]
  omega

theorem filter_display_eq_single (gs : List KeywordGroup) (g : KeywordGroup)
    (hg : g ∈ gs) (hnd : (gs.map KeywordGroup.display).Nodup) :
    gs.filter (fun g' => g'.display == g.display) = [g] := by
  induction gs with
  | nil => cases hg
  | cons g0 gs ih =>
    simp only [List.map_cons, List.nodup_cons] at hnd
    rcases List.mem_cons.mp hg with h | h
    · subst h
      rw [List.filter_cons_of_pos (by simp)]
      have hrest : gs.filter (fun g' => g'.display == g.display) = [] := by
        rw [List.filter_eq_nil_iff]
        intro a ha
        simp only [beq_iff_eq]
        intro he
        exact hnd.1 (he ▸ List.mem_map_of_mem KeywordGroup.display ha)
      rw [hrest]
    · have hne : g0.display ≠ g.display := by
        intro he
        exact hnd.1 (he ▸ List.mem_map_of_mem KeywordGroup.display h)
      rw [List.filter_cons_of_neg (by simp [hne])]
      exact ih h hnd.2

/-! ## Stable sort lemmas -/

theorem insertSorted_perm {α : Type} (lt : α → α → Bool) (x : α) (l : List α) :
    (insertSorted lt x l).Perm (x :: l) := by
  induction l with
  | nil => exact List.Perm.refl _
  | cons y ys ih =>
    simp only [insertSorted]
    by_cases h : lt y x = true
    · rw [if_pos h]
      exact (ih.cons y).trans (List.Perm.swap x y ys)
    · rw [if_neg h]

theorem stableSort_perm {α : Type} (lt : α → α → Bool) (l : List α) :
    (stableSort lt l).Perm l := by
  induction l with
  | nil => exact List.Perm.refl _
  | cons x xs ih => exact (insertSorted_perm lt x (stableSort lt xs)).trans (ih.cons x)

theorem stableSort_length {α : Type} (lt : α → α → Bool) (l : List α) :
    (stableSort lt l).length = l.length :=
  (stableSort_perm lt l).length_eq

theorem sortSynonyms_perm (synonyms : List String) :
    (sortSynonyms synonyms).Perm synonyms :=
  stableSort_perm _ synonyms

/-- For a non-empty synonym list, a pattern match is exactly "some
(lowered) synonym is a substring of the lowered body". -/
theorem groupPatternMatches_eq_any (synonyms : List String) (h : synonyms ≠ [])
    (pl : String) :
    groupPatternMatches synonyms pl
      = synonyms.any (fun s => containsSub (lowerStr s) pl) := by
  have hperm := sortSynonyms_perm synonyms
  have hne : (sortSynonyms synonyms).isEmpty = false := by
    rcases hs : sortSynonyms synonyms with _ | ⟨a, t⟩
    · exact absurd (hs ▸ hperm).symm.eq_nil h
    · rfl
  simp only [groupPatternMatches, hne, Bool.false_or]
  apply Bool.eq_iff_iff.mpr
  simp only [List.any_eq_true]
  exact ⟨fun ⟨x, hx, hp⟩ => ⟨x, hperm.mem_iff.mp hx, hp⟩,
         fun ⟨x, hx, hp⟩ => ⟨x, hperm.mem_iff.mpr hx, hp⟩⟩

/-- For a group with at least one synonym, the per-post match predicate
coincides with the claim-side `postHasSynonym`. -/
theorem matchCount_eq_filter_length (posts : List String) (g : KeywordGroup)
    (h : g.synonyms ≠ []) :
    matchCount posts g = (posts.filter (postHasSynonym g)).length := by
  have hpred : ∀ p, groupPatternMatches g.synonyms (lowerStr p) = postHasSynonym g p := by
    intro p
    rw [groupPatternMatches_eq_any g.synonyms h (lowerStr p)]
    rfl
  simp only [matchCount]
  rw [List.countP_eq_length_filter]
  congr 1
  apply List.filter_congr
  intro p _
  exact hpred p

/-! ## Key-order lemmas -/

theorem contains_iff_mem (l : List String) (x : String) :
    l.contains x = true ↔ x ∈ l := by
  induction l with
  | nil => simp
  | cons y ys ih => simp [List.contains_cons, ih, beq_iff_eq]

theorem initFold_keys (gs : List KeywordGroup) (d : List (String × Nat)) :
    ((gs.foldl (fun d g => dictSet d g.display 0) d).map Prod.fst)
      = (gs.map KeywordGroup.display).foldl
          (fun acc x => if acc.contains x then acc else acc ++ [x]) (d.map Prod.fst) := by
  induction gs generalizing d with
  | nil => rfl
  | cons g gs ih =>
    simp only [List.foldl_cons, List.map_cons]
    rw [ih]
    congr 1
    rw [dictSet_keys, dictMem_eq_contains]

theorem firstSeen_contains (l : List String) (acc : List String) (x : String)
    (h : x ∈ l ∨ x ∈ acc) :
    x ∈ l.foldl (fun acc x => if acc.contains x then acc else acc ++ [x]) acc := by
  induction l generalizing acc with
  | nil =>
    rcases h with h | h
    · cases h
    · exact h
  | cons y ys ih =>
    simp only [List.foldl_cons]
    apply ih
    rcases h with h | h
    · rcases List.mem_cons.mp h with rfl | h
      · right
        by_cases hy : acc.contains x = true
        · rw [if_pos hy]
          exact (contains_iff_mem acc x).mp hy
        · rw [if_neg hy]
          exact List.mem_append_right _ (List.mem_singleton.mpr rfl)
      · left; exact h
    · right
      by_cases hy : acc.contains y = true
      · rw [if_pos hy]; exact h
      · rw [if_neg hy]
        exact List.mem_append_left _ h

theorem innerFold_keys (posts : List String) (g : KeywordGroup)
    (d : List (String × Nat)) (h : dictMem d g.display = true) :
    ((posts.foldl (fun counts post =>
        if groupPatternMatches g.synonyms (lowerStr post) then
          dictSet counts g.display (dictGet counts g.display + 1)
        else counts) d).map Prod.fst) = d.map Prod.fst := by
  induction posts generalizing d with
  | nil => rfl
  | cons p ps ih =>
    simp only [List.foldl_cons]
    by_cases hm : groupPatternMatches g.synonyms (lowerStr p) = true
    · rw [if_pos hm]
      have hkeys : (dictSet d g.display (dictGet d g.display + 1)).map Prod.fst
          = d.map Prod.fst := by
        rw [dictSet_keys, if_pos h]
      have hmem : dictMem (dictSet d g.display (dictGet d g.display + 1)) g.display
          = true := by
        rw [dictMem_set]; simp
      rw [ih _ hmem, hkeys]
    · rw [if_neg hm]; exact ih d h

theorem outerFold_keys (posts : List String) (gs : List KeywordGroup)
    (d : List (String × Nat)) (h : ∀ g ∈ gs, dictMem d g.display = true) :
    ((gs.foldl (fun counts g =>
        posts.foldl (fun counts post =>
          if groupPatternMatches g.synonyms (lowerStr post) then
            dictSet counts g.display (dictGet counts g.display + 1)
          else counts) counts) d).map Prod.fst) = d.map Prod.fst := by
  induction gs generalizing d with
  | nil => rfl
  | cons g gs ih =>
    simp only [List.foldl_cons]
    have hg := h g (List.mem_cons_self g gs)
    have hkeys := innerFold_keys posts g d hg
    rw [ih _ ?_, hkeys]
    intro g' hg'
    rw [dictMem_eq_contains, hkeys, ← dictMem_eq_contains]
    exact h g' (List.mem_cons_of_mem g hg')

/-- The counter's result has exactly one entry per *distinct* display
name, in first-seen order. -/
theorem count_keyword_groups_keys (posts : List String) (gs : List KeywordGroup) :
    (count_keyword_groups posts gs).map Prod.fst
      = firstSeenKeys (gs.map KeywordGroup.display) := by
  simp only [count_keyword_groups]
  rw [outerFold_keys]
  · rw [initFold_keys]; rfl
  · intro g hg
    rw [dictMem_eq_contains, initFold_keys, contains_iff_mem]
    exact firstSeen_contains _ _ _ (Or.inl (List.mem_map_of_mem KeywordGroup.display hg))

/-! ## Order lemmas for the ranking -/

theorem keyLt_irrefl (a : Bool × ℚ) : keyLt a a = false := by
  rcases a with ⟨a1, a2⟩
  cases a1 <;> simp [keyLt]

theorem keyLt_asymm (a b : Bool × ℚ) (h : keyLt a b = true) : keyLt b a = false := by
  rcases a with ⟨a1, a2⟩
  rcases b with ⟨b1, b2⟩
  cases a1 <;> cases b1 <;> simp_all [keyLt] <;> linarith

theorem keyLt_compl_trans (a b c : Bool × ℚ) (hba : keyLt b a = false)
    (hcb : keyLt c b = false) : keyLt c a = false := by
  rcases a with ⟨a1, a2⟩
  rcases b with ⟨b1, b2⟩
  rcases c with ⟨c1, c2⟩
  cases a1 <;> cases b1 <;> cases c1 <;> simp_all [keyLt] <;> linarith

theorem entryLt_asymm (a b : String × OddsEntry) (h : entryLt a b = true) :
    entryLt b a = false :=
  keyLt_asymm _ _ h

theorem entryLt_compl_trans (a b c : String × OddsEntry) (hba : entryLt b a = false)
    (hcb : entryLt c b = false) : entryLt c a = false :=
  keyLt_compl_trans _ _ _ hba hcb

theorem entryLt_key_ne (a b : String × OddsEntry) (h : entryLt a b = true) :
    oddsSortKey a ≠ oddsSortKey b := by
  intro he
  simp only [entryLt, he, keyLt_irrefl] at h
  cases h

/-! ## Stable sort: sortedness and stability -/

theorem insertSorted_pairwise {α : Type} (lt : α → α → Bool)
    (hasym : ∀ a b, lt a b = true → lt b a = false)
    (htrans : ∀ a b c, lt b a = false → lt c b = false → lt c a = false)
    (x : α) (l : List α) (hl : l.Pairwise (fun a b => lt b a = false)) :
    (insertSorted lt x l).Pairwise (fun a b => lt b a = false) := by
  induction l with
  | nil => simp [insertSorted]
  | cons y ys ih =>
    rcases List.pairwise_cons.mp hl with ⟨hy, hys⟩
    simp only [insertSorted]
    by_cases h : lt y x = true
    · rw [if_pos h]
      apply List.pairwise_cons.mpr
      refine ⟨fun z hz => ?_, ih hys⟩
      rcases List.mem_cons.mp ((insertSorted_perm lt x ys).mem_iff.mp hz) with rfl | hz'
      · exact hasym y z h
      · exact hy z hz'
    · rw [if_neg h]
      apply List.pairwise_cons.mpr
      have hyx : lt y x = false := by simpa using h
      refine ⟨fun z hz => ?_, hl⟩
      rcases List.mem_cons.mp hz with rfl | hz'
      · exact hyx
      · exact htrans x y z hyx (hy z hz')

theorem stableSort_pairwise {α : Type} (lt : α → α → Bool)
    (hasym : ∀ a b, lt a b = true → lt b a = false)
    (htrans : ∀ a b c, lt b a = false → lt c b = false → lt c a = false)
    (l : List α) :
    (stableSort lt l).Pairwise (fun a b => lt b a = false) := by
  induction l with
  | nil => simp [stableSort]
  | cons x xs ih => exact insertSorted_pairwise lt hasym htrans x _ ih

theorem insertSorted_filter {α κ : Type} [DecidableEq κ] (key : α → κ)
    (lt : α → α → Bool) (hkey : ∀ a b, lt a b = true → key a ≠ key b)
    (x : α) (l : List α) (k : κ) :
    (insertSorted lt x l).filter (fun e => decide (key e = k))
      = if key x = k then x :: l.filter (fun e => decide (key e = k))
        else l.filter (fun e => decide (key e = k)) := by
  induction l with
  | nil =>
    by_cases h : key x = k <;> simp [insertSorted, h]
  | cons y ys ih =>
    simp only [insertSorted]
    by_cases h : lt y x = true
    · rw [if_pos h]
      by_cases hx : key x = k
      · have hy : key y ≠ k := fun he => (hkey y x h) (he.trans hx.symm)
        rw [List.filter_cons_of_neg (by simp [hy]), ih, if_pos hx,
          List.filter_cons_of_neg (by simp [hy]), if_pos hx]
      · rw [List.filter_cons, List.filter_cons, ih, if_neg hx, if_neg hx]
    · rw [if_neg h]
      by_cases hx : key x = k
      · rw [List.filter_cons_of_pos (by simp [hx]), if_pos hx]
      · rw [List.filter_cons_of_neg (by simp [hx]), if_neg hx]

theorem stableSort_filter {α κ : Type} [DecidableEq κ] (key : α → κ)
    (lt : α → α → Bool) (hkey : ∀ a b, lt a b = true → key a ≠ key b)
    (l : List α) (k : κ) :
    (stableSort lt l).filter (fun e => decide (key e = k))
      = l.filter (fun e => decide (key e = k)) := by
  induction l with
  | nil => rfl
  | cons x xs ih =>
    simp only [stableSort]
    rw [insertSorted_filter key lt hkey, ih]
    by_cases hx : key x = k
    · rw [if_pos hx, List.filter_cons_of_pos (by simp [hx])]
    · rw [if_neg hx, List.filter_cons_of_neg (by simp [hx])]

theorem entryLt_false_oddsLe (a b : String × OddsEntry) (h : entryLt b a = false) :
    oddsLe a.2.odds b.2.odds := by
  rcases ha : a.2.odds with _ | oa <;> rcases hb : b.2.odds with _ | ob <;>
    simp_all [entryLt, keyLt, oddsSortKey, oddsLe]

/-! ## Bridge lemmas -/

theorem analyze_thread_results (posts keywords : List String) (rate : ℚ) :
    (analyze_thread posts keywords rate).results
      = stableSort entryLt
          (calculate_odds (count_keyword_groups posts (parse_keyword_groups keywords))
            rate) := rfl

theorem analyze_thread_total (posts keywords : List String) (rate : ℚ) :
    (analyze_thread posts keywords rate).total_count
      = ((count_keyword_groups posts (parse_keyword_groups keywords)).map
          (fun e => e.2)).sum := rfl

theorem calculate_odds_keys (counts : List (String × Nat)) (rate : ℚ) :
    (calculate_odds counts rate).map Prod.fst = counts.map Prod.fst := by
  simp only [calculate_odds, List.map_map]
  apply List.map_congr_left
  intro e he
  by_cases h : e.2 = 0 <;> simp [h]

theorem calculate_odds_length (counts : List (String × Nat)) (rate : ℚ) :
    (calculate_odds counts rate).length = counts.length := by
  simp [calculate_odds]

theorem mem_zip_map {α β : Type} (f : α → β) (l : List α) (p : α × β)
    (hp : p ∈ l.zip (l.map f)) : p.2 = f p.1 ∧ p.1 ∈ l := by
  induction l with
  | nil => cases hp
  | cons x xs ih =>
    simp only [List.map_cons, List.zip_cons_cons] at hp
    rcases List.mem_cons.mp hp with h | h
    · rw [h]
      exact ⟨rfl, List.mem_cons_self x xs⟩
    · rcases ih h with ⟨h1, h2⟩
      exact ⟨h1, List.mem_cons_of_mem x h2⟩

theorem sum_filter_pos (l : List (String × Nat)) :
    ((l.filter (fun e => decide (0 < e.2))).map (fun e => e.2)).sum
      = (l.map (fun e => e.2)).sum := by
  induction l with
  | nil => rfl
  | cons e t ih =>
    by_cases h : 0 < e.2
    · rw [List.filter_cons_of_pos (by simpa using h)]
      simp only [List.map_cons, List.sum_cons, ih]
    · have h0 : e.2 = 0 := by omega
      rw [List.filter_cons_of_neg (by simpa using h)]
      simp [ih, h0]

/-! ## Claim C2 -/

/-- **C2**, counterexample.  Two keyword groups sharing the displayName
`"A"` both count the single post `"a"` into the same dict entry, so the
returned count is `2`, strictly above the number of posts `1`: the
claimed bound `[0, number of posts]` fails for an arbitrary group list. -/
theorem C2_counterexample :
    ¬ (∀ e ∈ count_keyword_groups ["a"] [⟨"A", ["A"]⟩, ⟨"A", ["A"]⟩],
        e.2 ≤ (["a"] : List String).length) := by
  decide

/-- **C2**, amended: when the groups' displayNames are pairwise distinct
and every group has at least one synonym, the counter returns for each
group's displayName the number of posts whose lower-cased body contains
at least one of the group's lower-cased synonyms, each count lying in
`[0, number of posts]`; the scenario-1 inputs yield Aチーム=5, Bチーム=2,
Cチーム=1, Dチーム=0 with total 8. -/
theorem C2_theorem :
    (∀ (posts : List String) (groups : List KeywordGroup),
        (groups.map KeywordGroup.display).Nodup →
        (∀ g ∈ groups, g.synonyms ≠ []) →
        ∀ g ∈ groups,
          dictGet (count_keyword_groups posts groups) g.display
              = (posts.filter (postHasSynonym g)).length ∧
          dictGet (count_keyword_groups posts groups) g.display ≤ posts.length)
    ∧ count_keyword_groups
        ["Aチームは強いと思う", "Bチームが勝つでしょう", "やっぱりAだな", "Cチームも侮れない",
         "Aで間違いない", "Bの調子がいい", "チームAしかない", "A最強"]
        (parse_keyword_groups ["Aチーム|A|チームA", "Bチーム|B", "Cチーム|C", "Dチーム"])
        = [("Aチーム", 5), ("Bチーム", 2), ("Cチーム", 1), ("Dチーム", 0)]
    ∧ ((count_keyword_groups
        ["Aチームは強いと思う", "Bチームが勝つでしょう", "やっぱりAだな", "Cチームも侮れない",
         "Aで間違いない", "Bの調子がいい", "チームAしかない", "A最強"]
        (parse_keyword_groups ["Aチーム|A|チームA", "Bチーム|B", "Cチーム|C", "Dチーム"])).map
          (fun e => e.2)).sum = 8 := by
  refine ⟨?_, by decide, by decide⟩
  intro posts groups hnd hne g hg
  have hget := count_keyword_groups_get posts groups g.display
  rw [filter_display_eq_single groups g hg hnd] at hget
  simp only [List.map_cons, List.map_nil, List.sum_cons, List.sum_nil, Nat.add_zero] at hget
  rw [hget, matchCount_eq_filter_length posts g (hne g hg)]
  exact ⟨rfl, List.length_filter_le _ _⟩

/-- Witness for `C2_theorem` at a concrete input. -/
theorem C2_witness :
    dictGet (count_keyword_groups ["x a y", "zzz"] [⟨"A", ["a"]⟩, ⟨"B", ["b"]⟩]) "A" = 1 ∧
    dictGet (count_keyword_groups ["x a y", "zzz"] [⟨"A", ["a"]⟩, ⟨"B", ["b"]⟩]) "A" ≤ 2 := by
  have h := C2_theorem.1 ["x a y", "zzz"] [⟨"A", ["a"]⟩, ⟨"B", ["b"]⟩]
    (by decide) (by decide) ⟨"A", ["a"]⟩ (by decide)
  exact ⟨h.1.trans (by decide), h.2⟩

/-! ## Claim C3 -/

/-- **C3**, confirmed: appending one post to the post list raises a
group's count by exactly 1 when the post's lowered body contains at
least one of the group's synonyms, and by 0 otherwise — never by 2 or
more, however many synonyms or repeated occurrences the post holds; and
the scenario-2 inputs yield エンペラーワケア=3, 他の馬=1. -/
theorem C3_theorem :
    (∀ (posts : List String) (p : String) (groups : List KeywordGroup),
        ∀ g ∈ groups, (groups.map KeywordGroup.display).Nodup → g.synonyms ≠ [] →
        dictGet (count_keyword_groups (posts ++ [p]) groups) g.display
          = dictGet (count_keyword_groups posts groups) g.display
              + (if postHasSynonym g p then 1 else 0))
    ∧ count_keyword_groups
        ["エンペラーワケア最強！エンペラーワケア頑張れ！", "エンペラーも侮れない",
         "やっぱりエンペラーワケアだな", "他の馬も良い"]
        (parse_keyword_groups ["エンペラーワケア|エンペラー", "他の馬"])
        = [("エンペラーワケア", 3), ("他の馬", 1)] := by
  refine ⟨?_, by decide⟩
  intro posts p groups g hg hnd hne
  rw [count_keyword_groups_get, count_keyword_groups_get,
    filter_display_eq_single groups g hg hnd]
  simp only [List.map_cons, List.map_nil, List.sum_cons, List.sum_nil, Nat.add_zero]
  have heq := groupPatternMatches_eq_any g.synonyms hne (lowerStr p)
  simp only [matchCount, List.countP_append, List.countP_cons, List.countP_nil, heq]
  simp only [postHasSynonym, Nat.zero_add]

/-- Witness for `C3_theorem` at a concrete input. -/
theorem C3_witness :
    dictGet (count_keyword_groups (["b"] ++ ["A!"]) [⟨"A", ["a"]⟩]) "A"
      = dictGet (count_keyword_groups ["b"] [⟨"A", ["a"]⟩]) "A"
        + (if postHasSynonym ⟨"A", ["a"]⟩ "A!" then 1 else 0) :=
  C3_theorem.1 ["b"] "A!" [⟨"A", ["a"]⟩] ⟨"A", ["a"]⟩ (by decide) (by decide) (by decide)

/-! ## Claim C4 -/

/-- **C4**, counterexample.  The empty spec `""` contains no `'|'`, so it
is *not* dropped even though it reduces to zero non-empty synonyms: it
yields a group whose only synonym is the empty string.  Likewise
`"A|A"` yields non-distinct synonyms and `" a "` an untrimmed one. -/
theorem C4_counterexample :
    parse_keyword_groups ["", "A|A", " a "]
      = [⟨"", [""]⟩, ⟨"A", ["A", "A"]⟩, ⟨" a ", [" a "]⟩] := by
  decide

/-- **C4**, amended: every constructed group has a *non-empty synonym
list* whose first element is the displayName; a spec *containing* the
separator that strips down to zero non-empty synonyms is dropped; but a
spec *without* the separator always yields one group whose sole synonym
is the raw spec verbatim — untrimmed, possibly empty, and synonyms of a
split spec are not deduplicated. -/
theorem C4_theorem :
    (∀ specs : List String, ∀ g ∈ parse_keyword_groups specs,
        g.synonyms ≠ [] ∧ g.synonyms.head? = some g.display)
    ∧ (∀ s : String, strContainsChar s '|' = true →
        ((pySplitChar '|' s).map pyStrip).filter (fun t => t ≠ "") = [] →
        parse_keyword_groups [s] = [])
    ∧ (∀ s : String, strContainsChar s '|' = false →
        parse_keyword_groups [s] = [⟨s, [s]⟩]) := by
  refine ⟨?_, ?_, ?_⟩
  · intro specs
    induction specs with
    | nil => intro g hg; cases hg
    | cons kw rest ih =>
      intro g hg
      simp only [parse_keyword_groups] at hg
      rcases List.mem_append.mp hg with h | h
      · by_cases hc : strContainsChar kw '|' = true
        · rw [if_pos hc] at h
          rcases hsplit : ((pySplitChar '|' kw).map pyStrip).filter (fun s => s ≠ "")
            with _ | ⟨s0, syns⟩
          · rw [hsplit] at h; cases h
          · rw [hsplit] at h
            have := List.mem_singleton.mp h
            subst this
            exact ⟨by simp, rfl⟩
        · rw [if_neg hc] at h
          have := List.mem_singleton.mp h
          subst this
          exact ⟨by simp, rfl⟩
      · exact ih g h
  · intro s hc hfilter
    simp only [parse_keyword_groups, if_pos hc, hfilter, List.nil_append]
  · intro s hc
    simp [parse_keyword_groups, hc]

/-- Witness for `C4_theorem` at concrete inputs. -/
theorem C4_witness :
    ((⟨"A", ["A", "A"]⟩ : KeywordGroup).synonyms ≠ [] ∧
      (⟨"A", ["A", "A"]⟩ : KeywordGroup).synonyms.head?
        = some (⟨"A", ["A", "A"]⟩ : KeywordGroup).display) ∧
    parse_keyword_groups ["|"] = [] ∧
    parse_keyword_groups ["abc"] = [⟨"abc", ["abc"]⟩] :=
  ⟨ C4_theorem.1 ["A|A"] ⟨"A", ["A", "A"]⟩ (by decide),
   C4_theorem.2.1 "|" (by decide) (by decide),
   C4_theorem.2.2 "abc" (by decide)⟩

/-! ## Claim C1 -/

/-- **C1**, counterexample.  The two specs `"A"`, `"A"` produce two
groups with the same displayName, yet the analysis output contains **one**
result row (not one row per spec), because the counts dict is keyed by
displayName: both groups accumulate into the single entry, which ends at
count 2 for the single post `"a"`. -/
theorem C1_counterexample :
    (analyze_thread ["a"] ["A", "A"] 1).results.length = 1 ∧
    dictGet (count_keyword_groups ["a"] (parse_keyword_groups ["A", "A"])) "A" = 2 := by
  constructor
  · have h1 : count_keyword_groups ["a"] (parse_keyword_groups ["A", "A"])
        = [("A", 2)] := by decide
    rw [analyze_thread_results, stableSort_length, h1, calculate_odds_length]
    rfl
  · decide

/-- **C1**, amended: specs colliding on displayName are *merged* by the
dict-keyed counter, not processed independently — the counts mapping has
one entry per distinct displayName (in first-seen order), each entry
holding the **sum** of the per-post match counts of every group with
that displayName, and the ranked output has one row per distinct
displayName, not one row per spec. -/
theorem C1_theorem (posts keywords : List String) (rate : ℚ) :
    ((count_keyword_groups posts (parse_keyword_groups keywords)).map Prod.fst
        = firstSeenKeys ((parse_keyword_groups keywords).map KeywordGroup.display))
    ∧ (∀ k : String,
        dictGet (count_keyword_groups posts (parse_keyword_groups keywords)) k
          = (((parse_keyword_groups keywords).filter (fun g => g.display == k)).map
              (matchCount posts)).sum)
    ∧ (analyze_thread posts keywords rate).results.length
        = (count_keyword_groups posts (parse_keyword_groups keywords)).length := by
  refine ⟨count_keyword_groups_keys _ _, fun k => count_keyword_groups_get _ _ k, ?_⟩
  rw [analyze_thread_results, stableSort_length, calculate_odds_length]


/-! ## Claim C5 -/

/-- **C5**, confirmed: the odds engine gives every zero-count entry
undefined odds and probability 0; every positive-count entry gets
`odds = max(totalCount * payoutRate / count, 1)` — hence never below 1 —
and `probability = count / totalCount`; on the scenario-1 counts with
payout rate 4/5 the Aチーム row gets odds 32/25 = 1.28 and the Dチーム
row undefined odds with probability 0. -/
theorem C5_theorem :
    (∀ (counts : List (String × Nat)) (rate : ℚ),
      ∀ p ∈ counts.zip (calculate_odds counts rate),
        (p.1.2 = 0 → p.2.2.odds = none ∧ p.2.2.probability = 0) ∧
        (0 < p.1.2 →
          p.2.2.odds
              = some (max ((Nat.cast ((counts.map (fun e => e.2)).sum) * rate)
                  / (Nat.cast p.1.2 : ℚ)) 1) ∧
          p.2.2.probability
              = (Nat.cast p.1.2 : ℚ) / Nat.cast ((counts.map (fun e => e.2)).sum) ∧
          ∀ o : ℚ, p.2.2.odds = some o → 1 ≤ o) ∧
        p.2.1 = p.1.1 ∧ p.2.2.count = p.1.2)
    ∧ calculate_odds [("Aチーム", 5), ("Bチーム", 2), ("Cチーム", 1), ("Dチーム", 0)] (4/5)
        = [("Aチーム", ⟨5, some (32/25), 5/8⟩), ("Bチーム", ⟨2, some (16/5), 1/4⟩),
           ("Cチーム", ⟨1, some (32/5), 1/8⟩), ("Dチーム", ⟨0, none, 0⟩)] := by
  constructor
  · intro counts rate p hp
    simp only [calculate_odds] at hp
    rcases mem_zip_map _ counts p hp with ⟨hval, hmem⟩
    by_cases h0 : p.1.2 = 0
    · rw [hval, if_pos h0]
      exact ⟨fun _ => ⟨rfl, rfl⟩, fun hc => absurd h0 (Nat.pos_iff_ne_zero.mp hc),
        rfl, h0.symm⟩
    · have hpos : 0 < p.1.2 := Nat.pos_of_ne_zero h0
      have hle : p.1.2 ≤ (counts.map (fun e => e.2)).sum :=
        List.single_le_sum (fun x _ => Nat.zero_le x) _
          (List.mem_map_of_mem (fun e => e.2) hmem)
      have htot : 0 < (counts.map (fun e => e.2)).sum := Nat.lt_of_lt_of_le hpos hle
      rw [hval, if_neg h0]
      refine ⟨fun hc => absurd hc h0, fun _ => ⟨rfl, ?_, fun o ho => ?_⟩, rfl, rfl⟩
      · show (if 0 < (counts.map (fun e => e.2)).sum
            then ((p.1.2 : ℚ)) / (((counts.map (fun e => e.2)).sum : ℕ) : ℚ) else 0) = _
        rw [if_pos htot]
      · have ho2 : some (max ((Nat.cast ((counts.map (fun e => e.2)).sum) * rate)
            / (Nat.cast p.1.2 : ℚ)) 1) = some o := ho
        rw [← Option.some.inj ho2]
        exact le_max_right _ _
  · simp only [calculate_odds, List.map_cons, List.map_nil, List.sum_cons, List.sum_nil]
    norm_num [max_eq_left]

/-- Witness for `C5_theorem` at a concrete input (a zero-count entry). -/
theorem C5_witness :
    calculate_odds [("x", 0)] 1 = [("x", ⟨0, none, 0⟩)] ∧
    ((("x", 0), ("x", (⟨0, none, 0⟩ : OddsEntry))) :
        (String × Nat) × (String × OddsEntry)).2.2.odds = none ∧
    ((("x", 0), ("x", (⟨0, none, 0⟩ : OddsEntry))) :
        (String × Nat) × (String × OddsEntry)).2.2.probability = 0 := by
  have hcalc : calculate_odds [("x", 0)] 1 = [("x", ⟨0, none, 0⟩)] := by
    simp [calculate_odds]
  refine ⟨hcalc, ?_⟩
  have hmem : ((("x", 0), ("x", (⟨0, none, 0⟩ : OddsEntry))) :
      (String × Nat) × (String × OddsEntry)) ∈
      ([("x", 0)] : List (String × Nat)).zip (calculate_odds [("x", 0)] 1) := by
    rw [hcalc]
    exact List.mem_singleton.mpr rfl
  exact ( C5_theorem.1 [("x", 0)] 1 _ hmem).1 rfl

/-! ## Claim C6 -/

/-- **C6**, confirmed: the ranked sequence is pairwise ordered by the
odds order (ascending defined odds, undefined strictly after every
defined one, undefined ties undefined); it is a permutation of the
pre-sort odds list; equal sort keys keep their pre-sort relative order
(stable tie-break); and the pre-sort list is keyed in the order the
grouper first produced each displayName. -/
theorem C6_theorem (posts keywords : List String) (rate : ℚ) :
    ((analyze_thread posts keywords rate).results).Pairwise
        (fun a b => oddsLe a.2.odds b.2.odds)
    ∧ (∀ k : Bool × ℚ,
        ((analyze_thread posts keywords rate).results).filter
            (fun e => decide (oddsSortKey e = k))
          = (calculate_odds (count_keyword_groups posts (parse_keyword_groups keywords))
              rate).filter (fun e => decide (oddsSortKey e = k)))
    ∧ ((analyze_thread posts keywords rate).results).Perm
        (calculate_odds (count_keyword_groups posts (parse_keyword_groups keywords)) rate)
    ∧ (calculate_odds (count_keyword_groups posts (parse_keyword_groups keywords))
          rate).map Prod.fst
        = firstSeenKeys ((parse_keyword_groups keywords).map KeywordGroup.display) := by
  rw [analyze_thread_results]
  refine ⟨?_, ?_, stableSort_perm _ _, ?_⟩
  · exact (stableSort_pairwise entryLt entryLt_asymm entryLt_compl_trans _).imp
      (fun h => entryLt_false_oddsLe _ _ h)
  · intro k
    exact stableSort_filter oddsSortKey entryLt entryLt_key_ne _ k
  · rw [calculate_odds_keys, count_keyword_groups_keys]

/-! ## Claim C7 -/

/-- **C7**, confirmed: the reported `total_count` is the sum of the
per-entry counts of the counts mapping, and whenever it is positive the
probabilities of the positive-count result rows sum to exactly 1 in
exact rational arithmetic. -/
theorem C7_theorem (posts keywords : List String) (rate : ℚ) :
    (analyze_thread posts keywords rate).total_count
      = ((count_keyword_groups posts (parse_keyword_groups keywords)).map
          (fun e => e.2)).sum
    ∧ (0 < (analyze_thread posts keywords rate).total_count →
        (((analyze_thread posts keywords rate).results.filter
            (fun e => decide (0 < e.2.count))).map (fun e => e.2.probability)).sum = 1) := by
  refine ⟨rfl, ?_⟩
  intro hpos
  rw [analyze_thread_total] at hpos
  rw [analyze_thread_results]
  have hperm := (stableSort_perm entryLt
    (calculate_odds (count_keyword_groups posts (parse_keyword_groups keywords)) rate)).filter
      (fun e => decide (0 < e.2.count))
  rw [(hperm.map (fun e => e.2.probability)).sum_eq]
  set counts := count_keyword_groups posts (parse_keyword_groups keywords) with hcounts
  set total : Nat := (counts.map (fun e => e.2)).sum with htotal
  have hco : calculate_odds counts rate
      = counts.map (fun e => if e.2 = 0 then (e.1, (⟨0, none, 0⟩ : OddsEntry))
          else (e.1, ⟨e.2, some (max (((total : ℚ) * rate) / ((e.2 : ℕ) : ℚ)) 1),
            if 0 < total then ((e.2 : ℕ) : ℚ) / ((total : ℕ) : ℚ) else 0⟩)) := rfl
  have hfm : ∀ l : List (String × Nat),
      (l.map (fun e => if e.2 = 0 then (e.1, (⟨0, none, 0⟩ : OddsEntry))
          else (e.1, ⟨e.2, some (max (((total : ℚ) * rate) / ((e.2 : ℕ) : ℚ)) 1),
            if 0 < total then ((e.2 : ℕ) : ℚ) / ((total : ℕ) : ℚ) else 0⟩))).filter
        (fun e => decide (0 < e.2.count))
      = (l.filter (fun e => decide (0 < e.2))).map (fun e =>
          (e.1, (⟨e.2, some (max (((total : ℚ) * rate) / ((e.2 : ℕ) : ℚ)) 1),
            if 0 < total then ((e.2 : ℕ) : ℚ) / ((total : ℕ) : ℚ) else 0⟩ : OddsEntry))) := by
    intro l
    induction l with
    | nil => rfl
    | cons e t ih =>
      by_cases h : e.2 = 0
      · rw [List.map_cons, if_pos h, List.filter_cons_of_neg (by simp),
          List.filter_cons_of_neg (by simp [h]), ih]
      · have hp : 0 < e.2 := Nat.pos_of_ne_zero h
        rw [List.map_cons, if_neg h, List.filter_cons_of_pos (by simp [hp]),
          List.filter_cons_of_pos (by simp [hp]), List.map_cons, ih]
  rw [hco, hfm counts, List.map_map]
  have hfun : ((fun e : String × OddsEntry => e.2.probability) ∘ (fun e : String × Nat =>
      (e.1, (⟨e.2, some (max (((total : ℚ) * rate) / ((e.2 : ℕ) : ℚ)) 1),
        if 0 < total then ((e.2 : ℕ) : ℚ) / ((total : ℕ) : ℚ) else 0⟩ : OddsEntry))))
      = fun e : String × Nat =>
          if 0 < total then ((e.2 : ℕ) : ℚ) / ((total : ℕ) : ℚ) else 0 := rfl
  rw [hfun]
  have hif : (fun e : String × Nat =>
      if 0 < total then ((e.2 : ℕ) : ℚ) / ((total : ℕ) : ℚ) else 0)
      = fun e : String × Nat => ((e.2 : ℕ) : ℚ) * (((total : ℕ) : ℚ))⁻¹ := by
    funext e
    rw [if_pos hpos, div_eq_mul_inv]
  rw [hif, List.sum_map_mul_right]
  have hcast : ((counts.filter (fun e => decide (0 < e.2))).map
      (fun e : String × Nat => ((e.2 : ℕ) : ℚ)))
      = (((counts.filter (fun e => decide (0 < e.2))).map (fun e => e.2)).map
          (fun n : ℕ => (n : ℚ))) := by
    rw [List.map_map]; rfl
  rw [hcast, ← Nat.cast_list_sum, sum_filter_pos, ← htotal]
  have hne : ((total : ℕ) : ℚ) ≠ 0 := by
    exact_mod_cast Nat.pos_iff_ne_zero.mp hpos
  exact mul_inv_cancel₀ hne

/-- Witness for `C7_theorem` at a concrete input. -/
theorem C7_witness :
    0 < (analyze_thread ["a"] ["a", "b"] 1).total_count ∧
    (((analyze_thread ["a"] ["a", "b"] 1).results.filter
        (fun e => decide (0 < e.2.count))).map (fun e => e.2.probability)).sum = 1 :=
  ⟨by decide, ( C7_theorem ["a"] ["a", "b"] 1).2 (by decide)⟩

/-! ## Claim C8 -/

/-- **C8**, confirmed: `parse_thread_url` accepts a reference exactly
when its path has the direct `read.cgi` shape (under any host) or its
host is the fixed proxy host with the indirection shape; the indirection
is rewritten to `{realHost}.5ch.net`; anything else fails with the
`InvalidURL` error; and the scenario-3 reference resolves to host
`lavender.5ch.net`, board `keiba`, threadId `1234567890`. -/
theorem C8_theorem :
    (∀ url : String,
        (∃ info, parse_thread_url url = Except.ok info) ↔
          ((matchDirectPath (pyUrlparse url).path).isSome = true ∨
           ((pyUrlparse url).netloc = "itest.5ch.net" ∧
            (matchItestPath (pyUrlparse url).path).isSome = true)))
    ∧ (∀ (url h b t : String), (pyUrlparse url).netloc = "itest.5ch.net" →
        matchItestPath (pyUrlparse url).path = some (h, b, t) →
        parse_thread_url url
          = Except.ok ⟨h ++ ".5ch.net", b, t,
              (pyUrlparse url).scheme ++ "://" ++ (h ++ ".5ch.net")⟩)
    ∧ (∀ url : String,
        ¬((matchDirectPath (pyUrlparse url).path).isSome = true ∨
          ((pyUrlparse url).netloc = "itest.5ch.net" ∧
           (matchItestPath (pyUrlparse url).path).isSome = true)) →
        parse_thread_url url = Except.error ("無効なスレッドURL形式: " ++ url))
    ∧ parse_thread_url "https://itest.5ch.net/lavender/test/read.cgi/keiba/1234567890/"
        = Except.ok ⟨"lavender.5ch.net", "keiba", "1234567890",
            "https://lavender.5ch.net"⟩ := by
  refine ⟨?_, ?_, ?_, rfl⟩
  · intro url
    simp only [parse_thread_url]
    by_cases hn : (pyUrlparse url).netloc = "itest.5ch.net"
    · rw [if_pos hn]
      rcases hi : matchItestPath (pyUrlparse url).path with _ | ⟨h1, b1, t1⟩
      · rcases hd : matchDirectPath (pyUrlparse url).path with _ | g
        · simp [hn, hi, hd]
        · simp [hn, hi, hd]
      · simp [hn, hi]
    · rw [if_neg hn]
      rcases hd : matchDirectPath (pyUrlparse url).path with _ | g
      · simp [hn, hd]
      · simp [hn, hd]
  · intro url h b t hn hi
    simp only [parse_thread_url, if_pos hn, hi, Option.map_some']
  · intro url hnot
    push_neg at hnot
    rcases hnot with ⟨hd, hni⟩
    have hdn : matchDirectPath (pyUrlparse url).path = none := by
      rcases hmd : matchDirectPath (pyUrlparse url).path with _ | g
      · rfl
      · exact absurd (by rw [hmd]; rfl) hd
    simp only [parse_thread_url]
    by_cases hn : (pyUrlparse url).netloc = "itest.5ch.net"
    · have hin : matchItestPath (pyUrlparse url).path = none := by
        rcases hmi : matchItestPath (pyUrlparse url).path with _ | g2
        · rfl
        · exact absurd (by rw [hmi]; rfl) (hni hn)
      rw [if_pos hn, hin]
      simp [hdn]
    · rw [if_neg hn]
      simp [hdn]

/-- Witness for `C8_theorem` (the itest rewriting clause) at the
scenario-3 reference. -/
theorem C8_witness :
    parse_thread_url "https://itest.5ch.net/lavender/test/read.cgi/keiba/1234567890/"
      = Except.ok ⟨"lavender" ++ ".5ch.net", "keiba", "1234567890",
          "https" ++ "://" ++ ("lavender" ++ ".5ch.net")⟩ :=
  C8_theorem.2.1 "https://itest.5ch.net/lavender/test/read.cgi/keiba/1234567890/"
    "lavender" "keiba" "1234567890" (by decide) (by decide)

/-! ## Claim C9 -/

/-- **C9**, counterexample.  A transport fault on the dat request is a
raised exception, not "no content": `fetch_thread_dat` propagates it and
the scrape stops without consulting the fallback (which would have
produced `["post"]`); by contrast a 404 status does fall through to the
fallback. -/
theorem C9_counterexample :
    fetch_thread_dat (Except.error Transport.timeout) (fun _ => none) (fun _ => "")
        = Except.error Transport.timeout
    ∧ scrape_posts (Except.error Transport.timeout)
        (Except.ok ⟨200, [], some "utf-8", "html"⟩)
        (fun _ => none) (fun _ => "") (fun _ => ["post"])
        = Except.error (ScrapeError.transport Transport.timeout)
    ∧ scrape_posts (Except.ok ⟨404, [], none, ""⟩)
        (Except.ok ⟨200, [], some "utf-8", "html"⟩)
        (fun _ => none) (fun _ => "") (fun _ => ["post"])
        = Except.ok ["post"] :=
  ⟨rfl, rfl, rfl⟩

/-- **C9**, amended: a non-200 status on the primary (dat) attempt
yields no content and the scrape proceeds to the fallback attempt; but a
*transport fault* is not caught — it propagates as an exception and the
fallback is never attempted; only a 200 response yields decoded
content. -/
theorem C9_theorem (datNet htmlNet : Net) (decS : List Nat → Option String)
    (decR : List Nat → String) (parseHtml : String → List String) :
    (∀ r : HttpResponse, datNet = Except.ok r → r.status ≠ 200 →
        fetch_thread_dat datNet decS decR = Except.ok none ∧
        scrape_posts datNet htmlNet decS decR parseHtml
          = fallbackResult htmlNet decS decR parseHtml)
    ∧ (∀ t : Transport, datNet = Except.error t →
        scrape_posts datNet htmlNet decS decR parseHtml
          = Except.error (ScrapeError.transport t))
    ∧ (∀ r : HttpResponse, datNet = Except.ok r → r.status = 200 →
        fetch_thread_dat datNet decS decR
          = Except.ok (some (decodeSjis decS decR r.content))) := by
  refine ⟨?_, ?_, ?_⟩
  · intro r hr hs
    subst hr
    have hf : fetch_thread_dat (Except.ok r) decS decR = Except.ok none := by
      simp [fetch_thread_dat, hs]
    refine ⟨hf, ?_⟩
    simp only [scrape_posts, hf]
    simp
  · intro t ht
    subst ht
    rfl
  · intro r hr hs
    subst hr
    simp [fetch_thread_dat, hs]

/-- Witness for `C9_theorem` at a concrete 404 dat response. -/
theorem C9_witness :
    fetch_thread_dat (Except.ok ⟨404, [], none, ""⟩) (fun _ => none) (fun _ => "")
        = Except.ok none ∧
    scrape_posts (Except.ok ⟨404, [], none, ""⟩) (Except.ok ⟨200, [], some "utf-8", "h"⟩)
        (fun _ => none) (fun _ => "") (fun _ => ["post"])
      = fallbackResult (Except.ok ⟨200, [], some "utf-8", "h"⟩)
          (fun _ => none) (fun _ => "") (fun _ => ["post"]) :=
  ( C9_theorem (Except.ok ⟨404, [], none, ""⟩) (Except.ok ⟨200, [], some "utf-8", "h"⟩)
    (fun _ => none) (fun _ => "") (fun _ => ["post"])).1 ⟨404, [], none, ""⟩ rfl (by decide)

/-! ## Claim C10 -/

/-- **C10**, counterexample.  In the range token `"5-x"` the start part
parses to 5 and is assigned *before* `int("x")` raises, so the resulting
entry keeps start 5 — the line is **not** treated as if no range were
given (which would give start 1). -/
theorem C10_counterexample :
    pyInt "5-x" = none ∧
    parse_url_line "url 5-x" = some ⟨"url", 5, none⟩ := by
  exact ⟨rfl, by decide⟩

theorem clamp_entry_ok (s0 : Int) (e0 : Option Int) :
    1 ≤ (if s0 < 1 then 1 else s0) ∧
    ∀ k : Int, (match e0 with
        | some e => if e < (if s0 < 1 then 1 else s0) then none else some e
        | none => none) = some k → (if s0 < 1 then 1 else s0) ≤ k := by
  constructor
  · split <;> omega
  · intro k hk
    rcases e0 with _ | e
    · cases hk
    · dsimp only at hk
      by_cases hlt : e < (if s0 < 1 then 1 else s0)
      · rw [if_pos hlt] at hk
        cases hk
      · rw [if_neg hlt] at hk
        rw [← Option.some.inj hk]
        generalize hm : (if s0 < 1 then 1 else s0) = m at hlt ⊢
        omega

/-- **C10**, amended: the parser is total (modelled by `Option`); a line
that strips to empty yields no entry; a dash-free range token that is
not numeric is treated as no range (start 1, end unbounded); in a dashed
token an unparsable *start* leaves both defaults, while an unparsable
*end* keeps the already-assigned start with end unbounded; every
produced entry has start ≥ 1 (clamped) and, when an end is present,
start ≤ end (a smaller end having been discarded). -/
theorem C10_theorem :
    (∀ line : String, pyStrip line = "" → parse_url_line line = none)
    ∧ (∀ rs : String, strContainsChar rs '-' = false → pyInt rs = none →
        parseRangeToken rs = (1, none))
    ∧ (∀ rs : String, strContainsChar rs '-' = true →
        (pySplitChar '-' rs).getD 0 "" ≠ "" →
        pyInt ((pySplitChar '-' rs).getD 0 "") = none →
        parseRangeToken rs = (1, none))
    ∧ (∀ (rs : String) (s : Int), strContainsChar rs '-' = true →
        pyInt ((pySplitChar '-' rs).getD 0 "") = some s →
        (pySplitChar '-' rs).getD 1 "" ≠ "" →
        pyInt ((pySplitChar '-' rs).getD 1 "") = none →
        parseRangeToken rs = (s, none))
    ∧ (∀ (line : String) (e : UrlEntry), parse_url_line line = some e →
        1 ≤ e.startNum ∧ ∀ k : Int, e.endNum = some k → e.startNum ≤ k) := by
  refine ⟨?_, ?_, ?_, ?_, ?_⟩
  · intro line hl
    simp [parse_url_line, hl]
  · intro rs hc hi
    simp [parseRangeToken, hc, hi]
  · intro rs hc h0 hi
    simp only [parseRangeToken]
    rw [if_pos hc, if_neg h0, hi]
  · intro rs s hc his h1 hie
    have h0 : (pySplitChar '-' rs).getD 0 "" ≠ "" := by
      intro h
      rw [h] at his
      cases his
    simp only [parseRangeToken]
    rw [if_pos hc, if_neg h0, his, if_neg h1, hie, Option.map_none']
  · intro line e h
    simp only [parse_url_line] at h
    by_cases hl : pyStrip line = ""
    · rw [if_pos hl] at h
      cases h
    · rw [if_neg hl] at h
      rw [← Option.some.inj h]
      exact clamp_entry_ok _ _

/-- Witness for `C10_theorem` at concrete inputs. -/
theorem C10_witness :
    parse_url_line "   " = none ∧
    parseRangeToken "abc" = (1, none) ∧
    parseRangeToken "x-7" = (1, none) ∧
    parseRangeToken "9-z" = (9, none) ∧
    (1 ≤ (⟨"url", 7, none⟩ : UrlEntry).startNum ∧
      ∀ k : Int, (⟨"url", 7, none⟩ : UrlEntry).endNum = some k →
        (⟨"url", 7, none⟩ : UrlEntry).startNum ≤ k) :=
  ⟨ C10_theorem.1 "   " (by decide),
   C10_theorem.2.1 "abc" (by decide) (by decide),
   C10_theorem.2.2.1 "x-7" (by decide) (by decide) (by decide),
   C10_theorem.2.2.2.1 "9-z" 9 (by decide) (by decide) (by decide) (by decide),
   C10_theorem.2.2.2.2 "url 7-3" ⟨"url", 7, none⟩ (by decide)⟩
